import Mathlib

set_option maxRecDepth 100000

/-!
Formal model of the real-time control core of `leah_sign.c` (ATTiny85 LED sign
controller), shallowly embedded in Lean 4.

Conventions of the embedding:
* Machine integers are modeled as `Nat` with an explicit `% 2^w` wherever the C
  program's fixed width can actually wrap (`uint8_t` OCR registers, the
  `uint16_t` accumulators of the MAD estimator, the `uint16_t` `led_time`).
  The `uint64_t` millisecond counter is modeled as a plain `Nat`: none of the
  runs considered here comes anywhere near `2^64` ms, and the source comment
  itself declares the wraparound out of scope ("eventually this overflows...").
* The hardware environment is a stream `env : Nat → Nat` of successive ADC
  channel-0 (button divider) readings, indexed by a running read counter kept
  in the device state, plus an explicit list of channel-1 (microphone) readings
  where needed.  Each ADC conversion spin-waits for a hardware-bounded time,
  during which the interrupt-driven millisecond clock keeps running; that time
  is the parameter `eps` (milliseconds per conversion).
* `_delay_ms(k)` advances the millisecond clock by exactly `k`.
* Loops whose termination depends on the environment are interpreted with
  explicit fuel and return `Option`/a sum-like result type.
-/

namespace LeahSign

/-- Observable events of a run, used to state the claims: a write of the same
value to all four duty registers (the confirmation blink), the EEPROM settings
write of `save_settings`, arming the watchdog in `reset`, and
`check_button_input` returning 1 (a detected press). -/
inductive Ev where
  | setAll (v : Nat)
  | save
  | wdt
  | pressDetected
deriving DecidableEq, Repr

/-- Device state visible to the foreground thread: the millisecond clock
`millis` (written by the timer-0 ISR, modeled here as advancing during delays
and ADC conversions), the running count of channel-0 ADC reads (indexing the
environment stream), the four 8-bit duty registers, the in-RAM settings byte
and its EEPROM copy, and the event log. -/
structure St where
  millis : Nat
  adcIdx : Nat
  ocr0a : Nat
  ocr0b : Nat
  ocr1a : Nat
  ocr1b : Nat
  settings : Nat
  eeprom : Nat
  events : List Ev
deriving DecidableEq, Repr

/-- The all-zero initial state. -/
def st0 : St :=
  { millis := 0, adcIdx := 0, ocr0a := 0, ocr0b := 0, ocr1a := 0, ocr1b := 0,
    settings := 0, eeprom := 0, events := [] }

/-- `_delay_ms(d)`: the millisecond clock advances by `d` while the foreground
thread busy-waits. -/
def delay_ms (d : Nat) (s : St) : St := { s with millis := s.millis + d }

/-- `adc_read(0)`: returns the next button-divider reading from the environment
stream and advances the clock by the conversion time `eps`. -/
def adc_read0 (env : Nat → Nat) (eps : Nat) (s : St) : Nat × St :=
  (env s.adcIdx, { s with adcIdx := s.adcIdx + 1, millis := s.millis + eps })

/-- Write `v` to all four duty registers (`OCR0A/OCR0B/OCR1B/OCR1A`), recording
the observable `setAll` event; used by the confirmation blink of
`check_button_input`. -/
def setAllOcr (v : Nat) (s : St) : St :=
  { s with ocr0a := v % 256, ocr0b := v % 256, ocr1a := v % 256, ocr1b := v % 256,
           events := s.events ++ [Ev.setAll v] }

/-- The confirmation blink loop of `check_button_input`: `n` iterations of
"all registers to 255, wait 50 ms, all registers to 0, wait 50 ms". -/
def blink_loop : Nat → St → St
  | 0, s => s
  | n + 1, s => blink_loop n (delay_ms 50 (setAllOcr 0 (delay_ms 50 (setAllOcr 255 s))))

/-- `save_settings()`: `eeprom_update_byte(&settings_start_seq_ee, settings_start_seq)` —
persist the in-RAM settings byte to EEPROM. -/
def save_settings (s : St) : St :=
  { s with eeprom := s.settings, events := s.events ++ [Ev.save] }

/-- `reset()`: arm the watchdog (`wdt_enable(WDTO_30MS)`) and spin-wait
(`while(1){}`) until its expiry restarts the device.  The function never
returns; the arming is recorded as the `wdt` event and the non-return is
conveyed by the `resetDev` outcome of the caller. -/
def reset (s : St) : St := { s with events := s.events ++ [Ev.wdt] }

/-- Result of one `check_button_input()` call: returned 0, returned 1, or
entered the watchdog-reset path (which never returns). -/
inductive BtnR where
  | notPressed
  | pressed
  | resetDev
deriving DecidableEq, Repr

/-- `check_button_input()` (src lines 569-598): sample the button divider;
below threshold 1000 wait 300 ms and re-sample; still below, wait 3000 ms and
re-sample; still below, blink ten times, wait 2000 ms, persist settings and
force a watchdog reset.  Any press that does not reach the reset path returns 1
after the 300 ms debounce. -/
def check_button_input (env : Nat → Nat) (eps : Nat) (s : St) : BtnR × St :=
  let r0 := adc_read0 env eps s
  if r0.1 < 1000 then
    let s1 := delay_ms 300 r0.2
    let r1 := adc_read0 env eps s1
    if r1.1 < 1000 then
      let s2 := delay_ms 3000 r1.2
      let r2 := adc_read0 env eps s2
      if r2.1 < 1000 then
        (BtnR.resetDev, reset (save_settings (delay_ms 2000 (blink_loop 10 r2.2))))
      else
        (BtnR.pressed, { r2.2 with events := r2.2.events ++ [Ev.pressDetected] })
    else
      (BtnR.pressed, { r1.2 with events := r1.2.events ++ [Ev.pressDetected] })
  else
    (BtnR.notPressed, r0.2)

/-- An environment with no button activity: every channel-0 reading is at or
above the 1000 threshold. -/
def FreeEnv (env : Nat → Nat) : Prop := ∀ i, 1000 ≤ env i

/-! ## Time base (timer-0 overflow ISR) -/

/-- State owned by the timer-0 overflow ISR: the `uint16_t` sub-millisecond
tick counter and the `uint64_t` millisecond counter. -/
structure Timer0 where
  ticks : Nat
  millis : Nat
deriving DecidableEq, Repr

/-- `ISR(TIMER0_OVF_vect)` (src lines 602-611): increment the tick counter;
once it exceeds 4 (i.e. on every 5th interrupt), reset it and increment the
millisecond counter. -/
def timer0_ovf_isr (t : Timer0) : Timer0 :=
  let ticks := (t.ticks + 1) % 65536
  if 4 < ticks then
    { ticks := 0, millis := (t.millis + 1) % 18446744073709551616 }
  else
    { t with ticks := ticks }

/-! ## Emulated PWM channel (timer-1 interrupts) -/

/-- Pin state after the interrupts of one timer count `t` have run, for duty
register value `d`: at the overflow count (`t = 0`) `ISR(TIMER1_OVF_vect)`
drives the pin high unless `d ≤ 4` (dead zone); at the compare-match count
(`t = d`) `ISR(TIMER1_COMPA_vect)` drives it low. -/
def pwm_tick (d t : Nat) (pin : Bool) : Bool :=
  let pin1 := if t = 0 then (if 4 < d then true else pin) else pin
  if t = d then false else pin1

/-- Trace of the output-pin level over `n` timer counts starting at count `t`
with current pin level `pin`. -/
def pwm_run (d : Nat) : Nat → Bool → Nat → List Bool
  | _, _, 0 => []
  | t, pin, n + 1 =>
    let p := pwm_tick d t pin
    p :: pwm_run d (t + 1) p n

/-- Number of counts of one full 256-count timer period during which the
emulated output is high, starting from the steady state (pin low). -/
def pwm_high_count (d : Nat) : Nat :=
  (pwm_run d 0 false 256).count true

/-! ## Sound envelope estimator (ring buffer and MAD) -/

/-- `MIC_BUFFER_SIZE` -/
def MIC_BUFFER_SIZE : Nat := 16

/-- Sum of a list in `uint16_t` arithmetic (each addition reduced mod 2^16),
matching the accumulator loops of `get_mic_buffer_mad`. -/
def u16sum (l : List Nat) : Nat := l.foldl (fun a x => (a + x) % 65536) 0

/-- The C expression `abs(mic_buffer[i] - mean)` on avr-gcc, where `int` is 16
bits wide: the subtraction happens in `uint16_t` (no promotion to a wider
`int`), the result is reinterpreted as a signed 16-bit value, and `abs` of it
is converted back to `uint16_t`. -/
def dev16 (x m : Nat) : Nat :=
  let d := (x % 65536 + 65536 - m % 65536) % 65536
  if d < 32768 then d else 65536 - d

/-- `get_mic_buffer_mad()` (src lines 630-644): mean of the 16 buffered
samples (in `uint16_t` arithmetic, truncating division by 16), then the mean
of the absolute deviations from that mean. -/
def get_mic_buffer_mad (buf : List Nat) : Nat :=
  let total := u16sum buf
  let mean := total / MIC_BUFFER_SIZE
  let mad := u16sum (buf.map (fun x => dev16 x mean))
  mad / MIC_BUFFER_SIZE

/-- `init_mic_buffer()` (src lines 621-626): every entry pre-filled with the
ADC mid-scale value 512, write index reset to 0.  Returned as
(buffer, mic_buffer_current). -/
def init_mic_buffer : List Nat × Nat := (List.replicate MIC_BUFFER_SIZE 512, 0)

/-- The noise-floor subtraction of the sound-reactive sequences (src lines
1476-1482): subtract 40, clamping at zero. -/
def noise_floor (mic : Nat) : Nat := if 40 < mic then mic - 40 else 0

end LeahSign

namespace LeahSign

example : get_mic_buffer_mad init_mic_buffer.1 = 0 := by decide
example : pwm_high_count 7 = 7 := by decide
example : pwm_high_count 4 = 0 := by decide

/-! ## Lemmas about the emulated PWM channel -/

lemma pwm_run_low (d : Nat) (hd : d ≤ 4) :
    ∀ n t, pwm_run d t false n = List.replicate n false := by
  intro n
  induction n with
  | zero => intro t; rfl
  | succ n ih =>
    intro t
    have htick : pwm_tick d t false = false := by
      unfold pwm_tick
      have h4 : ¬ 4 < d := by omega
      simp [h4]
    simp [pwm_run, htick, ih, List.replicate_succ]

lemma pwm_run_high (d : Nat) (hd : 4 < d) :
    ∀ n t, 1 ≤ t →
      pwm_run d t (decide (t - 1 < d)) n =
        (List.range n).map (fun j => decide (t + j < d)) := by
  intro n
  induction n with
  | zero => intro t _; rfl
  | succ n ih =>
    intro t ht
    have htick : pwm_tick d t (decide (t - 1 < d)) = decide (t < d) := by
      unfold pwm_tick
      have ht0 : t ≠ 0 := by omega
      simp only [if_neg ht0]
      by_cases htd : t = d
      · simp [htd]
      · rw [if_neg htd]
        by_cases h1 : t < d
        · have : t - 1 < d := by omega
          simp [h1, this]
        · have : ¬ (t - 1 < d) := by omega
          simp [h1, this]
    have hrec := ih (t + 1) (by omega)
    simp only [pwm_run, htick, List.range_succ_eq_map, List.map_cons, List.map_map]
    have htail : pwm_run d (t + 1) (decide (t < d)) n =
        List.map ((fun j => decide (t + j < d)) ∘ Nat.succ) (List.range n) := by
      rw [show decide (t < d) = decide ((t + 1) - 1 < d) by simp, hrec]
      apply List.map_congr_left
      intro j _
      simp only [Function.comp_apply]
      exact decide_eq_decide.mpr (by omega)
    rw [htail]
    congr 1

lemma pwm_trace_high (d : Nat) (hd : 4 < d) :
    pwm_run d 0 false 256 =
      true :: (List.range 255).map (fun j => decide (1 + j < d)) := by
  have h0 : pwm_tick d 0 false = true := by
    unfold pwm_tick
    have hne : ¬ (0 : Nat) = d := by omega
    simp [hd, hne]
  have hrun := pwm_run_high d hd 255 1 (by omega)
  rw [show decide ((1 : Nat) - 1 < d) = true by
    rw [decide_eq_true_eq]
    omega] at hrun
  rw [show (256 : Nat) = 255 + 1 from rfl]
  show (let p := pwm_tick d 0 false; p :: pwm_run d 1 p 255) = _
  simp only [h0]
  rw [hrun]

lemma count_range_decide (d t : Nat) :
    ∀ n, ((List.range n).map (fun j => decide (t + j < d))).count true = min n (d - t) := by
  intro n
  induction n with
  | zero => simp
  | succ n ih =>
    rw [List.range_succ, List.map_append, List.count_append]
    by_cases h : t + n < d
    · simp only [List.map_cons, List.map_nil]
      rw [ih]
      simp [h]
      omega
    · simp only [List.map_cons, List.map_nil]
      rw [ih]
      simp [h]
      omega

lemma pwm_high_count_eq (d : Nat) (hd : 4 < d) (hd' : d < 256) :
    pwm_high_count d = d := by
  unfold pwm_high_count
  rw [pwm_trace_high d hd]
  rw [List.count_cons]
  have : ((List.range 255).map (fun j => decide (1 + j < d))).count true = min 255 (d - 1) :=
    count_range_decide d 1 255
  rw [this]
  simp
  omega

/-- C3: for every duty value `d` in 0..=255, over one full 256-count timer
period started in the steady state (pin low), the overflow interrupt drives
the pin high and the compare-match interrupt drives it low so that the
high-time count equals `d` — a high-time fraction equal to `d/255` within one
count (|255·high − 256·d| ≤ 255) — except that for `d ≤ 4` the pin is never
driven high and the output stays continuously low (dead-zone rule); moreover
the period always ends with the pin low, so the steady-state start is
self-sustaining. -/
theorem pwm_duty_cycle (d : Nat) (hd : d < 256) :
    (d ≤ 4 → pwm_run d 0 false 256 = List.replicate 256 false) ∧
    (4 < d → pwm_high_count d = d ∧
      ((255 * pwm_high_count d : Int) - 256 * d).natAbs ≤ 255) ∧
    (pwm_run d 0 false 256).getLast? = some false := by
  refine ⟨fun h => pwm_run_low d h 256 0, fun h => ?_, ?_⟩
  · have hc := pwm_high_count_eq d h hd
    refine ⟨hc, ?_⟩
    rw [hc]
    have : ((255 * d : Int) - 256 * d).natAbs = d := by
      have : (255 * d : Int) - 256 * d = -d := by ring
      rw [this]
      simp
    omega
  · by_cases h : d ≤ 4
    · rw [pwm_run_low d h 256 0]
      rw [show (256 : Nat) = 255 + 1 by rfl, List.replicate_succ']
      exact List.getLast?_concat _
    · push_neg at h
      rw [pwm_trace_high d h]
      rw [show (255 : Nat) = 254 + 1 by rfl, List.range_succ, List.map_append,
        List.map_cons, List.map_nil, ← List.cons_append, List.getLast?_concat]
      have hlt : ¬ (1 + 254 < d) := by omega
      simp [hlt]

/-- Witness for `pwm_duty_cycle` at `d = 7`. -/
theorem pwm_duty_cycle_witness :
    7 < 256 ∧
    ((7 ≤ 4 → pwm_run 7 0 false 256 = List.replicate 256 false) ∧
     (4 < 7 → pwm_high_count 7 = 7 ∧
       ((255 * pwm_high_count 7 : Int) - 256 * 7).natAbs ≤ 255) ∧
     (pwm_run 7 0 false 256).getLast? = some false) :=
  ⟨by omega, pwm_duty_cycle 7 (by omega)⟩

/-! ## Lemmas about the time base -/

/-- C8: iterating the timer-0 overflow ISR from the initial state, the
millisecond counter after `k` interrupts is exactly `k / 5` and the tick
counter is `k % 5`: every 5th interrupt (N = 5, ticks of ≈0.25 ms, so one
millisecond count ≈ 1.25 ms) increments the millisecond counter by exactly one
and resets the tick counter to zero.  The ISR is the only writer of `millis`
in the source; every other component only reads it. -/
theorem timer0_millis_count (k : Nat) (hk : k < 18446744073709551616) :
    timer0_ovf_isr^[k] ⟨0, 0⟩ = ⟨k % 5, k / 5⟩ := by
  induction k with
  | zero => rfl
  | succ k ih =>
    rw [Function.iterate_succ_apply', ih (by omega)]
    unfold timer0_ovf_isr
    have h5 : k % 5 + 1 < 65536 := by omega
    simp only [Nat.mod_eq_of_lt h5]
    by_cases h : 4 < k % 5 + 1
    · have hm : k % 5 = 4 := by omega
      have hdiv : k / 5 + 1 = (k + 1) / 5 := by omega
      have hmod : (k + 1) % 5 = 0 := by omega
      have hlt : k / 5 + 1 < 18446744073709551616 := by omega
      simp [h, hmod, hdiv.symm, Nat.mod_eq_of_lt hlt]
    · have hm : k % 5 < 4 := by omega
      have hdiv : k / 5 = (k + 1) / 5 := by omega
      have hmod : (k + 1) % 5 = k % 5 + 1 := by omega
      simp [h, hmod, hdiv]

/-- Witness for `timer0_millis_count` at `k = 12`. -/
theorem timer0_millis_count_witness :
    12 < 18446744073709551616 ∧ timer0_ovf_isr^[12] ⟨0, 0⟩ = ⟨2, 2⟩ :=
  ⟨by omega, timer0_millis_count 12 (by omega)⟩

/-! ## Lemmas about the input monitor -/

/-- The event trace produced by `n` iterations of the confirmation blink. -/
def blinkEvents : Nat → List Ev
  | 0 => []
  | n + 1 => [Ev.setAll 255, Ev.setAll 0] ++ blinkEvents n

lemma blink_loop_spec : ∀ (n : Nat) (s : St),
    (blink_loop n s).events = s.events ++ blinkEvents n ∧
    (blink_loop n s).millis = s.millis + 100 * n ∧
    (blink_loop n s).adcIdx = s.adcIdx ∧
    (blink_loop n s).eeprom = s.eeprom ∧
    (blink_loop n s).settings = s.settings := by
  intro n
  induction n with
  | zero => intro s; simp [blink_loop, blinkEvents]
  | succ n ih =>
    intro s
    have h := ih (delay_ms 50 (setAllOcr 0 (delay_ms 50 (setAllOcr 255 s))))
    simp only [blink_loop]
    refine ⟨?_, ?_, ?_, ?_, ?_⟩
    · rw [h.1]
      simp [delay_ms, setAllOcr, blinkEvents]
    · rw [h.2.1]
      simp [delay_ms, setAllOcr]
      omega
    · rw [h.2.2.1]
      simp [delay_ms, setAllOcr]
    · rw [h.2.2.2.1]
      simp [delay_ms, setAllOcr]
    · rw [h.2.2.2.2]
      simp [delay_ms, setAllOcr]

/-- C4: if the initial sample, the re-sample after the 300 ms debounce delay,
and the re-sample after the further 3000 ms hold delay all read below the
press threshold 1000, then `check_button_input` performs the ten-cycle
confirmation blink on all four channels (`setAll 255 / setAll 0` events),
persists the pending configuration byte to EEPROM (`save` event,
`eeprom = settings`), and triggers a full device restart by arming the
watchdog (`wdt` event) and spin-waiting for its expiry — the `resetDev`
outcome, meaning the call never returns and the device restarts with all
hardware state reinitialized. -/
lemma check_button_reset_eq (env : Nat → Nat) (eps : Nat) (s : St)
    (h0 : env s.adcIdx < 1000) (h1 : env (s.adcIdx + 1) < 1000)
    (h2 : env (s.adcIdx + 2) < 1000) :
    check_button_input env eps s =
      (BtnR.resetDev, reset (save_settings (delay_ms 2000 (blink_loop 10
        { s with adcIdx := s.adcIdx + 3, millis := s.millis + 3 * eps + 3300 })))) := by
  have c1 : (adc_read0 env eps s).1 < 1000 := by simpa [adc_read0] using h0
  have c2 : (adc_read0 env eps (delay_ms 300 (adc_read0 env eps s).2)).1 < 1000 := by
    simpa [adc_read0, delay_ms] using h1
  have c3 : (adc_read0 env eps (delay_ms 3000
      (adc_read0 env eps (delay_ms 300 (adc_read0 env eps s).2)).2)).1 < 1000 := by
    simpa [adc_read0, delay_ms] using h2
  have hS : (adc_read0 env eps (delay_ms 3000
      (adc_read0 env eps (delay_ms 300 (adc_read0 env eps s).2)).2)).2 =
      { s with adcIdx := s.adcIdx + 3, millis := s.millis + 3 * eps + 3300 } := by
    simp [adc_read0, delay_ms, St.mk.injEq]
    omega
  unfold check_button_input
  simp only []
  rw [if_pos c1, if_pos c2, if_pos c3, hS]

theorem check_button_long_press (env : Nat → Nat) (eps : Nat) (s : St)
    (h0 : env s.adcIdx < 1000) (h1 : env (s.adcIdx + 1) < 1000)
    (h2 : env (s.adcIdx + 2) < 1000) :
    (check_button_input env eps s).1 = BtnR.resetDev ∧
    (check_button_input env eps s).2.events =
      s.events ++ (blinkEvents 10 ++ [Ev.save, Ev.wdt]) ∧
    (check_button_input env eps s).2.eeprom = s.settings ∧
    (check_button_input env eps s).2.millis = s.millis + 3 * eps + 6300 ∧
    (check_button_input env eps s).2.adcIdx = s.adcIdx + 3 := by
  rw [check_button_reset_eq env eps s h0 h1 h2]
  have hb := blink_loop_spec 10
    { s with adcIdx := s.adcIdx + 3, millis := s.millis + 3 * eps + 3300 }
  refine ⟨rfl, ?_, ?_, ?_, ?_⟩
  · simp only [reset, save_settings, delay_ms]
    simp only [hb.1]
    simp
  · simp only [reset, save_settings, delay_ms]
    simp only [hb.2.2.2.2]
  · simp only [reset, save_settings, delay_ms]
    simp only [hb.2.1]
  · simp only [reset, save_settings, delay_ms]
    simp only [hb.2.2.1]

/-- Witness for `check_button_long_press`: a constantly held button. -/
theorem check_button_long_press_witness :
    ((fun _ : Nat => 0) st0.adcIdx < 1000) ∧
    ((check_button_input (fun _ => 0) 1 st0).1 = BtnR.resetDev ∧
     (check_button_input (fun _ => 0) 1 st0).2.events =
       st0.events ++ (blinkEvents 10 ++ [Ev.save, Ev.wdt]) ∧
     (check_button_input (fun _ => 0) 1 st0).2.eeprom = st0.settings ∧
     (check_button_input (fun _ => 0) 1 st0).2.millis = st0.millis + 3 * 1 + 6300 ∧
     (check_button_input (fun _ => 0) 1 st0).2.adcIdx = st0.adcIdx + 3) :=
  ⟨by decide,
   check_button_long_press (fun _ => 0) 1 st0 (by decide) (by decide) (by decide)⟩

/-- C9: `check_button_input` reports a press (returns 1) whenever its single
initial sample reads below the threshold 1000, even if the re-sample taken
after the 300 ms debounce delay reads at or above threshold (button released
again): a one-sample sub-threshold blip is always reported as tapped after the
debounce delay, never rejected as noise. -/
theorem check_button_single_blip (env : Nat → Nat) (eps : Nat) (s : St)
    (h0 : env s.adcIdx < 1000) (h1 : 1000 ≤ env (s.adcIdx + 1)) :
    check_button_input env eps s =
      (BtnR.pressed, { s with millis := s.millis + 2 * eps + 300,
                              adcIdx := s.adcIdx + 2,
                              events := s.events ++ [Ev.pressDetected] }) := by
  have h1' : ¬ env (s.adcIdx + 1) < 1000 := by omega
  simp [check_button_input, adc_read0, delay_ms, h0, h1', St.mk.injEq]
  omega

/-- Witness for `check_button_single_blip`: a one-read blip. -/
theorem check_button_single_blip_witness :
    ((fun i : Nat => if i = 0 then 0 else 1023) st0.adcIdx < 1000) ∧
    check_button_input (fun i => if i = 0 then 0 else 1023) 2 st0 =
      (BtnR.pressed, { st0 with
                         millis := st0.millis + 2 * 2 + 300,
                         adcIdx := st0.adcIdx + 2,
                         events := st0.events ++ [Ev.pressDetected] }) :=
  ⟨by decide,
   check_button_single_blip (fun i => if i = 0 then 0 else 1023) 2 st0
     (by decide) (by decide)⟩

/-! ## Lemmas about the sound envelope estimator -/

lemma u16sum_aux (l : List Nat) :
    ∀ a, a + l.sum < 65536 →
      l.foldl (fun a x => (a + x) % 65536) a = a + l.sum := by
  induction l with
  | nil => intro a _; simp
  | cons x xs ih =>
    intro a h
    simp only [List.foldl_cons, List.sum_cons] at *
    rw [Nat.mod_eq_of_lt (by omega), ih (a + x) (by omega)]
    omega

lemma u16sum_eq (l : List Nat) (h : l.sum < 65536) : u16sum l = l.sum := by
  unfold u16sum
  rw [u16sum_aux l 0 (by omega)]
  omega

lemma dev16_self (v : Nat) : dev16 v v = 0 := by
  unfold dev16
  have h : (v % 65536 + 65536 - v % 65536) % 65536 = 0 := by omega
  simp [h]

/-- C5: whenever all 16 ring-buffer entries hold the same ADC sample value `v`
(10-bit, so `v ≤ 1023`), `get_mic_buffer_mad` returns exactly 0; in
particular, immediately after `init_mic_buffer` (all entries pre-filled with
the mid-scale value 512 and the write index reset to 0), the very first MAD
computation returns 0, reflecting silence. -/
theorem mic_mad_constant (v : Nat) (hv : v ≤ 1023) :
    get_mic_buffer_mad (List.replicate 16 v) = 0 ∧
    get_mic_buffer_mad init_mic_buffer.1 = 0 ∧
    init_mic_buffer.2 = 0 := by
  refine ⟨?_, by decide, rfl⟩
  have hsum : (List.replicate 16 v).sum = 16 * v := by
    simp
    omega
  have htot : u16sum (List.replicate 16 v) = 16 * v := by
    rw [u16sum_eq _ (by rw [hsum]; omega), hsum]
  unfold get_mic_buffer_mad MIC_BUFFER_SIZE
  simp only [htot]
  have hmean : 16 * v / 16 = v := by omega
  rw [hmean, List.map_replicate, dev16_self]
  have hz : u16sum (List.replicate 16 0) = 0 := by
    have : (List.replicate 16 (0 : Nat)).sum = 0 := by simp
    rw [u16sum_eq _ (by omega), this]
  rw [hz]

/-- Witness for `mic_mad_constant` at `v = 512`. -/
theorem mic_mad_constant_witness :
    512 ≤ 1023 ∧
    (get_mic_buffer_mad (List.replicate 16 512) = 0 ∧
     get_mic_buffer_mad init_mic_buffer.1 = 0 ∧
     init_mic_buffer.2 = 0) :=
  ⟨by omega, mic_mad_constant 512 (by omega)⟩

/-! ## The MAD upper bound -/

lemma dev16_eq (x m : Nat) (hx : x ≤ 4095) (hm : m ≤ 4095) :
    dev16 x m = (x - m) + (m - x) := by
  unfold dev16
  simp only []
  split <;> omega

lemma dev16_le (x m c : Nat) (hx : x ≤ c) (hm : m ≤ c) (hc : c ≤ 4095) :
    dev16 x m ≤ c := by
  rw [dev16_eq x m (by omega) (by omega)]
  omega

lemma sum_le_len_mul (c : Nat) : ∀ l : List Nat, (∀ x ∈ l, x ≤ c) → l.sum ≤ l.length * c := by
  intro l
  induction l with
  | nil => intro _; simp
  | cons x xs ih =>
    intro h
    have hx := h x (by simp)
    have hxs := ih (fun y hy => h y (by simp [hy]))
    simp only [List.sum_cons, List.length_cons]
    calc x + xs.sum ≤ c + xs.length * c := by omega
    _ = (xs.length + 1) * c := by ring

lemma sum_map_split (m : Nat) : ∀ l : List Nat,
    (l.map (fun x => (x - m) + (m - x))).sum =
      (l.map (fun x => x - m)).sum + (l.map (fun x => m - x)).sum := by
  intro l
  induction l with
  | nil => simp
  | cons x xs ih =>
    simp only [List.map_cons, List.sum_cons, ih]
    omega

lemma sum_sub_cast (m : Nat) : ∀ l : List Nat,
    ((l.map (fun x => x - m)).sum : Int) - ((l.map (fun x => m - x)).sum : Int)
      = (l.sum : Int) - l.length * m := by
  intro l
  induction l with
  | nil => simp
  | cons x xs ih =>
    simp only [List.map_cons, List.sum_cons, List.length_cons]
    push_cast
    push_cast at ih
    have hexp : ((xs.length : Int) + 1) * (m : Int) = (xs.length : Int) * m + m := by
      ring
    rw [hexp]
    omega

lemma sum_above_le (m c : Nat) : ∀ l : List Nat, (∀ x ∈ l, x ≤ c) →
    (l.map (fun x => x - m)).sum ≤ (l.countP (fun x => decide (m < x))) * (c - m) := by
  intro l
  induction l with
  | nil => intro _; simp
  | cons x xs ih =>
    intro h
    have hx := h x (by simp)
    have hxs := ih (fun y hy => h y (by simp [hy]))
    simp only [List.map_cons, List.sum_cons, List.countP_cons]
    by_cases hm : m < x
    · simp [hm]
      rw [Nat.succ_mul]
      have hxc : x - m ≤ c - m := by omega
      omega
    · simp [hm]
      have hxm : x - m = 0 := by omega
      omega

lemma sum_below_le (m : Nat) : ∀ l : List Nat,
    (l.map (fun x => m - x)).sum ≤ (l.countP (fun x => decide (x < m))) * m := by
  intro l
  induction l with
  | nil => simp
  | cons x xs ih =>
    simp only [List.map_cons, List.sum_cons, List.countP_cons]
    by_cases hm : x < m
    · simp [hm]
      rw [Nat.succ_mul]
      have hxm : m - x ≤ m := by omega
      omega
    · simp [hm]
      have hxm : m - x = 0 := by omega
      omega

lemma countP_disjoint_le (m : Nat) : ∀ l : List Nat,
    l.countP (fun x => decide (m < x)) + l.countP (fun x => decide (x < m)) ≤ l.length := by
  intro l
  induction l with
  | nil => simp
  | cons x xs ih =>
    simp only [List.countP_cons, List.length_cons]
    by_cases h1 : m < x <;> by_cases h2 : x < m <;> simp [h1, h2] <;> omega

/-- Core arithmetic bound: the sum of the absolute deviations of 16 values in
0..1023 from the truncated mean of their sum is at most 8207, hence the MAD
(the truncated quotient by 16) is at most 512. -/
lemma mad_sum_le (l : List Nat) (hlen : l.length = 16) (hb : ∀ x ∈ l, x ≤ 1023) :
    (l.map (fun x => dev16 x (l.sum / 16))).sum ≤ 8207 := by
  have hT : l.sum ≤ 16368 := by
    have := sum_le_len_mul 1023 l hb
    omega
  have hm : l.sum / 16 ≤ 1023 := by omega
  have hmap : l.map (fun x => dev16 x (l.sum / 16)) =
      l.map (fun x => (x - l.sum / 16) + (l.sum / 16 - x)) := by
    apply List.map_congr_left
    intro x hx
    exact dev16_eq x (l.sum / 16) (by have := hb x hx; omega) (by omega)
  rw [hmap, sum_map_split]
  set m := l.sum / 16 with hmdef
  set A := (l.map (fun x => x - m)).sum with hA
  set B := (l.map (fun x => m - x)).sum with hB
  set na := l.countP (fun x => decide (m < x)) with hna
  set nb := l.countP (fun x => decide (x < m)) with hnb
  have hABr : (A : Int) - B = (l.sum : Int) - 16 * m := by
    have h := sum_sub_cast m l
    rw [hlen] at h
    rw [hA, hB]
    exact_mod_cast h
  have hAle : A ≤ na * (1023 - m) := sum_above_le m 1023 l hb
  have hBle : B ≤ nb * m := sum_below_le m l
  have hcount : na + nb ≤ 16 := by
    have := countP_disjoint_le m l
    omega
  have hrem : l.sum = 16 * m + l.sum % 16 ∧ l.sum % 16 < 16 := by
    constructor
    · omega
    · omega
  by_contra hcon
  push_neg at hcon
  have hAB : A = B + l.sum % 16 := by omega
  have hB4097 : 4097 ≤ B := by omega
  have hA4097 : 4097 ≤ A := by omega
  have h1 : 4097 ≤ nb * m := le_trans hB4097 hBle
  have h2 : 4097 ≤ na * (1023 - m) := le_trans hA4097 hAle
  have hmc : m * (1023 - m) ≤ 261632 := by
    have hcast : ((1023 - m : Nat) : Int) = 1023 - (m : Int) := by omega
    have h1 : (m : Int) * ((1023 - m : Nat) : Int) ≤ 261632 := by
      rw [hcast]
      nlinarith [sq_nonneg ((m : Int) - 511), sq_nonneg ((m : Int) - 512)]
    exact_mod_cast h1
  have hnanb : na * nb ≤ 64 := by
    have hc' : (na : Int) + nb ≤ 16 := by exact_mod_cast hcount
    have h1 : (na : Int) * nb ≤ 64 := by
      nlinarith [sq_nonneg ((na : Int) - nb), Int.natCast_nonneg na, Int.natCast_nonneg nb]
    exact_mod_cast h1
  have hprod : (nb * m) * (na * (1023 - m)) ≤ 16744448 := by
    have e : (nb * m) * (na * (1023 - m)) = (na * nb) * (m * (1023 - m)) := by ring
    rw [e]
    exact le_trans (Nat.mul_le_mul hnanb hmc) (by norm_num)
  have : 4097 * 4097 ≤ (nb * m) * (na * (1023 - m)) := Nat.mul_le_mul h1 h2
  omega

/-- C6: for all reachable ring-buffer contents (16 entries, each a 10-bit ADC
reading ≤ 1023), the MAD value returned by `get_mic_buffer_mad` is
non-negative and at most 512 (half the ADC range), and the subsequent
noise-floor subtraction never produces a negative intermediate value: whenever
the MAD is ≤ 40 the result is clamped to exactly 0. -/
theorem mic_mad_bounds (buf : List Nat) (hlen : buf.length = 16)
    (hb : ∀ x ∈ buf, x ≤ 1023) :
    get_mic_buffer_mad buf ≤ 512 ∧
    0 ≤ get_mic_buffer_mad buf ∧
    (∀ mic, mic ≤ 40 → noise_floor mic = 0) := by
  refine ⟨?_, Nat.zero_le _, ?_⟩
  · have hT : buf.sum ≤ 16368 := by
      have := sum_le_len_mul 1023 buf hb
      omega
    have htot : u16sum buf = buf.sum := u16sum_eq buf (by omega)
    have hm : buf.sum / 16 ≤ 1023 := by omega
    have hdl : ∀ y ∈ buf.map (fun x => dev16 x (buf.sum / 16)), y ≤ 1023 := by
      intro y hy
      rcases List.mem_map.mp hy with ⟨x, hx, rfl⟩
      exact dev16_le x (buf.sum / 16) 1023 (hb x hx) hm (by omega)
    have hdevsum : (buf.map (fun x => dev16 x (buf.sum / 16))).sum ≤ 16368 := by
      have := sum_le_len_mul 1023 _ hdl
      simp only [List.length_map, hlen] at this
      omega
    have hmadsum := mad_sum_le buf hlen hb
    unfold get_mic_buffer_mad MIC_BUFFER_SIZE
    simp only [htot]
    rw [u16sum_eq _ (by omega)]
    omega
  · intro mic hmic
    unfold noise_floor
    split <;> omega

/-- Witness for `mic_mad_bounds` on the extreme buffer of eight zero samples
followed by eight full-scale samples. -/
theorem mic_mad_bounds_witness :
    (List.replicate 8 0 ++ List.replicate 8 1023).length = 16 ∧
    (get_mic_buffer_mad (List.replicate 8 0 ++ List.replicate 8 1023) ≤ 512 ∧
     0 ≤ get_mic_buffer_mad (List.replicate 8 0 ++ List.replicate 8 1023) ∧
     (∀ mic, mic ≤ 40 → noise_floor mic = 0)) :=
  ⟨by decide,
   mic_mad_bounds (List.replicate 8 0 ++ List.replicate 8 1023) (by decide)
     (by decide)⟩

/-! ## The sequence engine -/

/-- Result of a sequence fragment: aborted by a press (`return 1` in the
source), entered the watchdog-reset path (never returns), or ran to
completion. -/
inductive FR where
  | pressed (s : St)
  | resetDev (s : St)
  | done (s : St)
deriving DecidableEq, Repr

/-- Sequential composition of sequence fragments: an early `return 1` or a
watchdog reset short-circuits the rest. -/
def FR.bind : FR → (St → FR) → FR
  | FR.done s, f => f s
  | r, _ => r

/-- One counted animation phase of a sequence body: the loop
`for(k iterations){ if(check_button_input()) return 1; <act>; _delay_ms(dly); }`
with `i` the current loop index and `k` the iterations remaining.  Every
inner loop of `seq1` and `seq8` is of this form (a `while(led < 255)` loop
starting from `led = 0` runs exactly 255 iterations). -/
def phase (env : Nat → Nat) (eps : Nat) (act : Nat → St → St) (dly : Nat) :
    Nat → Nat → St → FR
  | 0, _, s => FR.done s
  | k + 1, i, s =>
    match check_button_input env eps s with
    | (BtnR.pressed, s1) => FR.pressed s1
    | (BtnR.resetDev, s1) => FR.resetDev s1
    | (BtnR.notPressed, s1) => phase env eps act dly k (i + 1) (delay_ms dly (act i s1))

/-- Write `v` to `OCR0A` (`uint8_t`). -/
def wOcr0a (v : Nat) (s : St) : St := { s with ocr0a := v % 256 }

/-- Write `v` to `OCR0B` (`uint8_t`). -/
def wOcr0b (v : Nat) (s : St) : St := { s with ocr0b := v % 256 }

/-- Write `v` to `OCR1A` (`uint8_t`). -/
def wOcr1a (v : Nat) (s : St) : St := { s with ocr1a := v % 256 }

/-- Write `v` to `OCR1B` (`uint8_t`). -/
def wOcr1b (v : Nat) (s : St) : St := { s with ocr1b := v % 256 }

/-- Write `v` to all four duty registers (the `OCR0A = i; OCR0B = i; OCR1B = i;
OCR1A = i;` groups). -/
def wAll (v : Nat) (s : St) : St :=
  { s with ocr0a := v % 256, ocr0b := v % 256, ocr1a := v % 256, ocr1b := v % 256 }

/-- `OCR0A++; OCR0B++; OCR1B++; OCR1A++;` in `uint8_t` arithmetic. -/
def incAll (s : St) : St :=
  { s with ocr0a := (s.ocr0a + 1) % 256, ocr0b := (s.ocr0b + 1) % 256,
           ocr1a := (s.ocr1a + 1) % 256, ocr1b := (s.ocr1b + 1) % 256 }

/-- `OCR0A--; OCR0B--; OCR1B--; OCR1A--;` in `uint8_t` arithmetic. -/
def decAll (s : St) : St :=
  { s with ocr0a := (s.ocr0a + 255) % 256, ocr0b := (s.ocr0b + 255) % 256,
           ocr1a := (s.ocr1a + 255) % 256, ocr1b := (s.ocr1b + 255) % 256 }

/-- A phase descriptor: the per-iteration register action, the `_delay_ms`
argument, and the iteration count. -/
def PhaseD : Type := (Nat → St → St) × Nat × Nat

/-- Run a list of consecutive phases, short-circuiting on press or reset. -/
def runPhases (env : Nat → Nat) (eps : Nat) : List PhaseD → St → FR
  | [], s => FR.done s
  | p :: ps, s => (phase env eps p.1 p.2.1 p.2.2 0 s).bind (runPhases env eps ps)

/-- Total milliseconds consumed by a completed phase list (`eps` per
not-pressed poll plus the delay, per iteration). -/
def phasesCost (eps : Nat) (ps : List PhaseD) : Nat :=
  (ps.map (fun p => p.2.2 * (eps + p.2.1))).sum

/-- The phases of one full `seq1` pattern cycle (src lines 796-858): fade
`OCR0A`, `OCR0B`, `OCR1B`, `OCR1A` up from 0 to 255 one step per ms, then the
same four down from 255 to 0; each of the eight `while` loops polls the Input
Monitor before every step.  Iteration `i` of a fade-in writes `i + 1`;
iteration `i` of a fade-out writes `254 - i`. -/
def seq1_phases : List PhaseD :=
  [(fun i => wOcr0a (i + 1), 1, 255),
   (fun i => wOcr0b (i + 1), 1, 255),
   (fun i => wOcr1b (i + 1), 1, 255),
   (fun i => wOcr1a (i + 1), 1, 255),
   (fun i => wOcr0a (254 - i), 1, 255),
   (fun i => wOcr0b (254 - i), 1, 255),
   (fun i => wOcr1b (254 - i), 1, 255),
   (fun i => wOcr1a (254 - i), 1, 255)]

/-- One iteration of `seq1`'s outer `while` loop. -/
def seq1_body (env : Nat → Nat) (eps : Nat) (s : St) : FR :=
  runPhases env eps seq1_phases s

/-- The loop guard `(timeout < 0) || (millis < (start_time + (uint64_t)timeout))`
shared by all sequences; the second comparison is short-circuited away for the
negative (unbounded) sentinel. -/
def seq_guard (timeout : Int) (start millis : Nat) : Bool :=
  decide (timeout < 0) || decide (millis < start + timeout.toNat)

/-- Terminal outcome of a sequence call: `return 1` on press, `return 0` when
the timeout elapsed, or the non-returning watchdog-reset path. -/
inductive SR where
  | pressed (s : St)
  | timedOut (s : St)
  | resetDev (s : St)
deriving DecidableEq, Repr

/-- The C return value of a sequence outcome (`none` for the watchdog-reset
path, which never returns). -/
def SR.retVal : SR → Option Nat
  | SR.pressed _ => some 1
  | SR.timedOut _ => some 0
  | SR.resetDev _ => none

/-- The outer `while(seq_guard)` loop shared by the sequences, interpreted
with fuel (the number of outer iterations still allowed). -/
def runLoop (body : St → FR) (timeout : Int) (start : Nat) : Nat → St → Option SR
  | 0, _ => none
  | fuel + 1, s =>
    if seq_guard timeout start s.millis then
      match body s with
      | FR.pressed s1 => some (SR.pressed s1)
      | FR.resetDev s1 => some (SR.resetDev s1)
      | FR.done s1 => runLoop body timeout start fuel s1
    else some (SR.timedOut s)

/-- `seq1(timeout)` (src lines 796-858): zero the four duty registers, record
`start_time = millis`, then run fade cycles until the guard fails or a press
aborts. -/
def seq1 (env : Nat → Nat) (eps : Nat) (timeout : Int) (s : St) (fuel : Nat) :
    Option SR :=
  let s1 := wOcr1a 0 (wOcr1b 0 (wOcr0b 0 (wOcr0a 0 s)))
  runLoop (seq1_body env eps) timeout s1.millis fuel s1

/-- The phases of one full `seq8` in-loop cycle (src lines 1205-1291):
hold 500 ms, 60 decrements at 3 ms, 60 increments at 4 ms, hold 1000 ms,
40 increments at 2 ms, 40 decrements at 2 ms, 30 decrements at 5 ms, hold
2000 ms, 30 increments at 5 ms, hold 3000 ms, 40 increments at 2 ms, hold
2000 ms, 40 decrements at 2 ms. -/
def seq8_phases : List PhaseD :=
  [(fun _ s => s, 5, 100),
   (fun _ => decAll, 3, 60),
   (fun _ => incAll, 4, 60),
   (fun _ s => s, 10, 100),
   (fun _ => incAll, 2, 40),
   (fun _ => decAll, 2, 40),
   (fun _ => decAll, 5, 30),
   (fun _ s => s, 20, 100),
   (fun _ => incAll, 5, 30),
   (fun _ s => s, 30, 100),
   (fun _ => incAll, 2, 40),
   (fun _ s => s, 20, 100),
   (fun _ => decAll, 2, 40)]

/-- One iteration of `seq8`'s outer `while` loop. -/
def seq8_body (env : Nat → Nat) (eps : Nat) (s : St) : FR :=
  runPhases env eps seq8_phases s

/-- `seq8(timeout)` (src lines 1189-1294): zero the registers, record
`start_time = millis`, run the initial 60-step ramp (`OCR* = i` at 2 ms per
step, polling the Input Monitor each step), then run brownout cycles until
the guard fails or a press aborts. -/
def seq8 (env : Nat → Nat) (eps : Nat) (timeout : Int) (s : St) (fuel : Nat) :
    Option SR :=
  let s1 := wOcr1a 0 (wOcr1b 0 (wOcr0b 0 (wOcr0a 0 s)))
  let start := s1.millis
  match phase env eps (fun i => wAll i) 2 60 0 s1 with
  | FR.pressed s2 => some (SR.pressed s2)
  | FR.resetDev s2 => some (SR.resetDev s2)
  | FR.done s2 => runLoop (seq8_body env eps) timeout start fuel s2

/-- Result of `delay_millis_check_button`: the returned `button_pressed` flag,
or the non-returning watchdog-reset path entered from a poll. -/
inductive DR where
  | normal (r : Nat) (s : St)
  | resetDev (s : St)
deriving DecidableEq, Repr

/-- The `while(millis < start_time + millisdelay)` poll loop of
`delay_millis_check_button`, with the latched `button_pressed` flag. -/
def dmcb_loop (env : Nat → Nat) (eps : Nat) (start d : Nat) :
    Nat → Nat → St → Option DR
  | 0, _, _ => none
  | fuel + 1, pressed, s =>
    if s.millis < start + d then
      match check_button_input env eps s with
      | (BtnR.notPressed, s1) => dmcb_loop env eps start d fuel pressed s1
      | (BtnR.pressed, s1) => dmcb_loop env eps start d fuel 1 s1
      | (BtnR.resetDev, s1) => some (DR.resetDev s1)
    else some (DR.normal pressed s)

/-- `delay_millis_check_button(millisdelay)` (src lines 784-793): record
`start_time = millis`, poll the Input Monitor until the clock reaches
`start_time + millisdelay`, latching (but not early-returning on) any
detected press, and return the latched flag. -/
def delay_millis_check_button (env : Nat → Nat) (eps : Nat) (d : Nat) (s : St)
    (fuel : Nat) : Option DR :=
  dmcb_loop env eps s.millis d fuel 0 s

/-! ## Behaviour of one input-monitor poll -/

lemma check_free_eq (env : Nat → Nat) (eps : Nat) (s : St) (hfree : FreeEnv env) :
    check_button_input env eps s =
      (BtnR.notPressed, { s with adcIdx := s.adcIdx + 1, millis := s.millis + eps }) := by
  have h := hfree s.adcIdx
  unfold check_button_input
  simp only []
  rw [if_neg (by simp only [adc_read0]; omega)]
  simp [adc_read0]

lemma check_notPressed_eq (env : Nat → Nat) (eps : Nat) (s s1 : St)
    (h : check_button_input env eps s = (BtnR.notPressed, s1)) :
    s1 = { s with adcIdx := s.adcIdx + 1, millis := s.millis + eps } := by
  unfold check_button_input at h
  simp only [] at h
  split_ifs at h with c1 c2 c3
  · simp at h
  · simp at h
  · simp at h
  · rw [Prod.mk.injEq] at h
    rw [← h.2]
    simp [adc_read0]

lemma check_pressed_spec (env : Nat → Nat) (eps : Nat) (s s1 : St)
    (h : check_button_input env eps s = (BtnR.pressed, s1)) :
    s1.events = s.events ++ [Ev.pressDetected] ∧ s.millis + eps + 300 ≤ s1.millis := by
  unfold check_button_input at h
  simp only [] at h
  split_ifs at h with c1 c2 c3
  · simp at h
  · rw [Prod.mk.injEq] at h
    rw [← h.2]
    refine ⟨by simp [adc_read0, delay_ms], ?_⟩
    simp only [adc_read0, delay_ms]
    omega
  · rw [Prod.mk.injEq] at h
    rw [← h.2]
    refine ⟨by simp [adc_read0, delay_ms], ?_⟩
    simp only [adc_read0, delay_ms]
    omega
  · simp at h

/-! ## Phase lemmas -/

/-- An action that only touches the duty registers: it leaves the clock, the
ADC read counter and the event log unchanged. -/
def ActOk (act : Nat → St → St) : Prop :=
  ∀ j t, (act j t).millis = t.millis ∧ (act j t).adcIdx = t.adcIdx ∧
    (act j t).events = t.events

/-- All actions of a phase list are register-only. -/
def ActsOk (ps : List PhaseD) : Prop := ∀ p ∈ ps, ActOk p.1

lemma phase_done (env : Nat → Nat) (eps : Nat) (act : Nat → St → St) (dly : Nat)
    (hact : ActOk act) :
    ∀ k i s s1, phase env eps act dly k i s = FR.done s1 →
      s1.millis = s.millis + k * (eps + dly) ∧ s1.adcIdx = s.adcIdx + k ∧
      s1.events = s.events := by
  intro k
  induction k with
  | zero =>
    intro i s s1 h
    simp only [phase] at h
    cases h
    simp
  | succ k ih =>
    intro i s s1 h
    simp only [phase] at h
    rcases hc : check_button_input env eps s with ⟨b, st⟩
    rw [hc] at h
    cases b with
    | pressed => simp at h
    | resetDev => simp at h
    | notPressed =>
      simp only [] at h
      have hst := check_notPressed_eq env eps s st hc
      have hrec := ih (i + 1) (delay_ms dly (act i st)) s1 h
      have ha := hact i st
      have hm : (delay_ms dly (act i st)).millis = s.millis + eps + dly := by
        show (act i st).millis + dly = s.millis + eps + dly
        rw [ha.1, hst]
      have hi : (delay_ms dly (act i st)).adcIdx = s.adcIdx + 1 := by
        show (act i st).adcIdx = s.adcIdx + 1
        rw [ha.2.1, hst]
      have he : (delay_ms dly (act i st)).events = s.events := by
        show (act i st).events = s.events
        rw [ha.2.2, hst]
      refine ⟨?_, ?_, ?_⟩
      · rw [hrec.1, hm, Nat.succ_mul]
        omega
      · rw [hrec.2.1, hi]
        omega
      · rw [hrec.2.2, he]

lemma phase_pressed (env : Nat → Nat) (eps : Nat) (act : Nat → St → St) (dly : Nat)
    (hact : ActOk act) :
    ∀ k i s s1, phase env eps act dly k i s = FR.pressed s1 →
      s1.events = s.events ++ [Ev.pressDetected] := by
  intro k
  induction k with
  | zero =>
    intro i s s1 h
    simp [phase] at h
  | succ k ih =>
    intro i s s1 h
    simp only [phase] at h
    rcases hc : check_button_input env eps s with ⟨b, st⟩
    rw [hc] at h
    cases b with
    | pressed =>
      simp only [FR.pressed.injEq] at h
      rw [← h]
      exact (check_pressed_spec env eps s st hc).1
    | resetDev => simp at h
    | notPressed =>
      simp only [] at h
      have hst := check_notPressed_eq env eps s st hc
      have ha := hact i st
      have he : (delay_ms dly (act i st)).events = s.events := by
        show (act i st).events = s.events
        rw [ha.2.2, hst]
      rw [ih (i + 1) (delay_ms dly (act i st)) s1 h, he]

lemma phase_free (env : Nat → Nat) (eps : Nat) (act : Nat → St → St) (dly : Nat)
    (hfree : FreeEnv env) :
    ∀ k i s, ∃ s1, phase env eps act dly k i s = FR.done s1 := by
  intro k
  induction k with
  | zero => intro i s; exact ⟨s, rfl⟩
  | succ k ih =>
    intro i s
    rcases ih (i + 1) (delay_ms dly (act i
      { s with adcIdx := s.adcIdx + 1, millis := s.millis + eps })) with ⟨s1, h1⟩
    refine ⟨s1, ?_⟩
    simp only [phase, check_free_eq env eps s hfree]
    exact h1

/-- A press detected inside a phase after `j` silent polls: the phase returns
the press immediately, `j * (eps + dly) + (2 * eps + 300)` ms after its start,
with no further animation steps. -/
lemma phase_press_at (env : Nat → Nat) (eps : Nat) (act : Nat → St → St)
    (dly : Nat) (hact : ActOk act) :
    ∀ j k i s, j < k →
      (∀ n, n < j → 1000 ≤ env (s.adcIdx + n)) →
      env (s.adcIdx + j) < 1000 → 1000 ≤ env (s.adcIdx + j + 1) →
      ∃ s1, phase env eps act dly k i s = FR.pressed s1 ∧
        s1.millis = s.millis + j * (eps + dly) + (2 * eps + 300) := by
  intro j
  induction j with
  | zero =>
    intro k i s hk h0 hp hq
    rcases k with _ | k
    · omega
    have hcheck := check_button_single_blip env eps s (by simpa using hp)
      (by simpa using hq)
    refine ⟨{ s with
                millis := s.millis + 2 * eps + 300,
                adcIdx := s.adcIdx + 2,
                events := s.events ++ [Ev.pressDetected] }, ?_, ?_⟩
    · simp only [phase, hcheck]
    · show s.millis + 2 * eps + 300 = s.millis + 0 * (eps + dly) + (2 * eps + 300)
      omega
  | succ j ih =>
    intro k i s hk h0 hp hq
    rcases k with _ | k
    · omega
    have hfirst : 1000 ≤ env s.adcIdx := by
      have := h0 0 (by omega)
      simpa using this
    have hcheck : check_button_input env eps s =
        (BtnR.notPressed, { s with adcIdx := s.adcIdx + 1, millis := s.millis + eps }) := by
      unfold check_button_input
      simp only []
      rw [if_neg (by simp only [adc_read0]; omega)]
      simp [adc_read0]
    set s2 := delay_ms dly (act i
      { s with adcIdx := s.adcIdx + 1, millis := s.millis + eps }) with hs2
    have ha := hact i { s with adcIdx := s.adcIdx + 1, millis := s.millis + eps }
    have hadc2 : s2.adcIdx = s.adcIdx + 1 := by
      rw [hs2]
      show (act i _).adcIdx = s.adcIdx + 1
      rw [ha.2.1]
    have hmil2 : s2.millis = s.millis + eps + dly := by
      rw [hs2]
      show (act i _).millis + dly = s.millis + eps + dly
      rw [ha.1]
    rcases ih k (i + 1) s2 (by omega)
      (by intro n hn
          rw [hadc2]
          have := h0 (n + 1) (by omega)
          convert this using 2
          omega)
      (by rw [hadc2]
          convert hp using 2
          omega)
      (by rw [hadc2]
          convert hq using 2
          omega) with ⟨s1, h1, h2⟩
    refine ⟨s1, ?_, ?_⟩
    · simp only [phase, hcheck]
      exact h1
    · have hx : (j + 1) * (eps + dly) = j * (eps + dly) + (eps + dly) := by ring
      rw [h2, hmil2, hx]
      omega

/-! ## Phase-list lemmas -/

lemma runPhases_done (env : Nat → Nat) (eps : Nat) :
    ∀ ps, ActsOk ps → ∀ s s1, runPhases env eps ps s = FR.done s1 →
      s1.millis = s.millis + phasesCost eps ps ∧ s1.events = s.events := by
  intro ps
  induction ps with
  | nil =>
    intro _ s s1 h
    simp only [runPhases] at h
    cases h
    simp [phasesCost]
  | cons p ps ih =>
    intro hacts s s1 h
    simp only [runPhases] at h
    rcases hph : phase env eps p.1 p.2.1 p.2.2 0 s with ⟨s2⟩ | ⟨s2⟩ | ⟨s2⟩ <;>
      rw [hph] at h
    · simp [FR.bind] at h
    · simp [FR.bind] at h
    · simp only [FR.bind] at h
      have hp := phase_done env eps p.1 p.2.1 (hacts p (by simp)) p.2.2 0 s s2 hph
      have hr := ih (fun q hq => hacts q (by simp [hq])) s2 s1 h
      have hcost : phasesCost eps (p :: ps) =
          p.2.2 * (eps + p.2.1) + phasesCost eps ps := by
        simp [phasesCost]
      constructor
      · rw [hr.1, hp.1, hcost]
        omega
      · rw [hr.2, hp.2.2]

lemma runPhases_pressed (env : Nat → Nat) (eps : Nat) :
    ∀ ps, ActsOk ps → ∀ s s1, runPhases env eps ps s = FR.pressed s1 →
      s1.events = s.events ++ [Ev.pressDetected] := by
  intro ps
  induction ps with
  | nil =>
    intro _ s s1 h
    simp [runPhases] at h
  | cons p ps ih =>
    intro hacts s s1 h
    simp only [runPhases] at h
    rcases hph : phase env eps p.1 p.2.1 p.2.2 0 s with ⟨s2⟩ | ⟨s2⟩ | ⟨s2⟩ <;>
      rw [hph] at h
    · simp only [FR.bind, FR.pressed.injEq] at h
      rw [← h]
      exact phase_pressed env eps p.1 p.2.1 (hacts p (by simp)) p.2.2 0 s s2 hph
    · simp [FR.bind] at h
    · simp only [FR.bind] at h
      have hp := phase_done env eps p.1 p.2.1 (hacts p (by simp)) p.2.2 0 s s2 hph
      rw [ih (fun q hq => hacts q (by simp [hq])) s2 s1 h, hp.2.2]

lemma runPhases_free (env : Nat → Nat) (eps : Nat) (hfree : FreeEnv env) :
    ∀ ps s, ∃ s1, runPhases env eps ps s = FR.done s1 := by
  intro ps
  induction ps with
  | nil => intro s; exact ⟨s, rfl⟩
  | cons p ps ih =>
    intro s
    rcases phase_free env eps p.1 p.2.1 hfree p.2.2 0 s with ⟨s2, h2⟩
    rcases ih s2 with ⟨s1, h1⟩
    refine ⟨s1, ?_⟩
    simp only [runPhases, h2, FR.bind]
    exact h1

lemma seq1_phases_actsOk : ActsOk seq1_phases := by
  intro p hp
  simp only [seq1_phases, List.mem_cons, List.not_mem_nil, or_false] at hp
  rcases hp with rfl | rfl | rfl | rfl | rfl | rfl | rfl | rfl <;>
    exact fun j t => ⟨rfl, rfl, rfl⟩

lemma seq8_phases_actsOk : ActsOk seq8_phases := by
  intro p hp
  simp only [seq8_phases, List.mem_cons, List.not_mem_nil, or_false] at hp
  rcases hp with rfl | rfl | rfl | rfl | rfl | rfl | rfl | rfl | rfl | rfl | rfl | rfl | rfl <;>
    exact fun j t => ⟨rfl, rfl, rfl⟩

lemma seq1_cost (eps : Nat) : phasesCost eps seq1_phases = 2040 * (eps + 1) := by
  simp [phasesCost, seq1_phases]
  ring

lemma seq8_cost (eps : Nat) : phasesCost eps seq8_phases = 840 * eps + 9540 := by
  simp [phasesCost, seq8_phases]
  ring

/-! ## Outer-loop lemmas -/

lemma seq_guard_false_iff (t : Int) (start m : Nat) :
    seq_guard t start m = false ↔ 0 ≤ t ∧ start + t.toNat ≤ m := by
  simp [seq_guard]

lemma seq_guard_neg (t : Int) (ht : t < 0) (start m : Nat) :
    seq_guard t start m = true := by
  simp [seq_guard]
  omega

lemma runLoop_timedOut_guard (body : St → FR) (t : Int) (start : Nat) :
    ∀ fuel s s1, runLoop body t start fuel s = some (SR.timedOut s1) →
      seq_guard t start s1.millis = false := by
  intro fuel
  induction fuel with
  | zero => intro s s1 h; simp [runLoop] at h
  | succ fuel ih =>
    intro s s1 h
    simp only [runLoop] at h
    by_cases hg : seq_guard t start s.millis
    · rw [if_pos hg] at h
      rcases hb : body s with ⟨s2⟩ | ⟨s2⟩ | ⟨s2⟩ <;> rw [hb] at h
      · simp at h
      · simp at h
      · exact ih s2 s1 h
    · rw [if_neg hg] at h
      simp only [Option.some.injEq, SR.timedOut.injEq] at h
      rw [← h]
      simpa using hg

lemma runLoop_timedOut_upper (body : St → FR) (t : Int) (start C : Nat)
    (ht : 0 ≤ t)
    (hbody : ∀ s s1, body s = FR.done s1 → s1.millis = s.millis + C) :
    ∀ fuel s s1, runLoop body t start fuel s = some (SR.timedOut s1) →
      s1.millis = s.millis ∨ s1.millis < start + t.toNat + C := by
  intro fuel
  induction fuel with
  | zero => intro s s1 h; simp [runLoop] at h
  | succ fuel ih =>
    intro s s1 h
    simp only [runLoop] at h
    by_cases hg : seq_guard t start s.millis
    · rw [if_pos hg] at h
      rcases hb : body s with ⟨s2⟩ | ⟨s2⟩ | ⟨s2⟩ <;> rw [hb] at h
      · simp at h
      · simp at h
      · have hs2 := hbody s s2 hb
        have hgm : s.millis < start + t.toNat := by
          simp only [seq_guard, Bool.or_eq_true, decide_eq_true_eq] at hg
          omega
        rcases ih s2 s1 h with h1 | h1
        · right
          rw [h1, hs2]
          omega
        · right
          exact h1
    · rw [if_neg hg] at h
      simp only [Option.some.injEq, SR.timedOut.injEq] at h
      left
      rw [← h]

lemma runLoop_pressed_events (body : St → FR) (t : Int) (start : Nat)
    (hdone : ∀ s s1, body s = FR.done s1 → s1.events = s.events)
    (hpress : ∀ s s1, body s = FR.pressed s1 →
      s1.events = s.events ++ [Ev.pressDetected]) :
    ∀ fuel s s1, runLoop body t start fuel s = some (SR.pressed s1) →
      s1.events = s.events ++ [Ev.pressDetected] := by
  intro fuel
  induction fuel with
  | zero => intro s s1 h; simp [runLoop] at h
  | succ fuel ih =>
    intro s s1 h
    simp only [runLoop] at h
    by_cases hg : seq_guard t start s.millis
    · rw [if_pos hg] at h
      rcases hb : body s with ⟨s2⟩ | ⟨s2⟩ | ⟨s2⟩ <;> rw [hb] at h
      · simp only [Option.some.injEq, SR.pressed.injEq] at h
        rw [← h]
        exact hpress s s2 hb
      · simp at h
      · rw [ih s2 s1 h, hdone s s2 hb]
    · rw [if_neg hg] at h
      simp at h

lemma runLoop_free_none (body : St → FR) (t : Int) (start : Nat) (ht : t < 0)
    (hfb : ∀ s, ∃ s1, body s = FR.done s1) :
    ∀ fuel s, runLoop body t start fuel s = none := by
  intro fuel
  induction fuel with
  | zero => intro s; rfl
  | succ fuel ih =>
    intro s
    rcases hfb s with ⟨s1, h1⟩
    simp only [runLoop, seq_guard_neg t ht start s.millis, if_true, h1]
    exact ih s1

lemma runLoop_free_term (body : St → FR) (t : Int) (start C : Nat) (ht : 0 ≤ t)
    (hfb : ∀ s, ∃ s1, body s = FR.done s1)
    (hbody : ∀ s s1, body s = FR.done s1 → s1.millis = s.millis + C) :
    ∀ n s, start + t.toNat ≤ s.millis + n * C →
      ∃ s1, runLoop body t start (n + 1) s = some (SR.timedOut s1) := by
  intro n
  induction n with
  | zero =>
    intro s hs
    have hg : seq_guard t start s.millis = false := by
      rw [seq_guard_false_iff]
      exact ⟨ht, by omega⟩
    exact ⟨s, by simp [runLoop, hg]⟩
  | succ n ih =>
    intro s hs
    by_cases hg : seq_guard t start s.millis
    · rcases hfb s with ⟨s2, h2⟩
      have hm := hbody s s2 h2
      have hx : (n + 1) * C = n * C + C := by ring
      rcases ih s2 (by rw [hm]; omega) with ⟨s1, h1⟩
      refine ⟨s1, ?_⟩
      simp only [runLoop, hg, if_true, h2]
      exact h1
    · exact ⟨s, by simp [runLoop, hg]⟩

lemma runLoop_free_shape (body : St → FR) (t : Int) (start : Nat)
    (hfb : ∀ s, ∃ s1, body s = FR.done s1) :
    ∀ fuel s r, runLoop body t start fuel s = some r → ∃ s1, r = SR.timedOut s1 := by
  intro fuel
  induction fuel with
  | zero => intro s r h; simp [runLoop] at h
  | succ fuel ih =>
    intro s r h
    simp only [runLoop] at h
    by_cases hg : seq_guard t start s.millis
    · rw [if_pos hg] at h
      rcases hfb s with ⟨s2, h2⟩
      rw [h2] at h
      exact ih s2 r h
    · rw [if_neg hg] at h
      exact ⟨s, by simp only [Option.some.injEq] at h; rw [← h]⟩

lemma runLoop_two_steps (body : St → FR) (t : Int) (start : Nat) (s s2 : St)
    (hg1 : seq_guard t start s.millis = true)
    (hb : body s = FR.done s2)
    (hg2 : seq_guard t start s2.millis = false) :
    runLoop body t start 2 s = some (SR.timedOut s2) := by
  rw [show (2 : Nat) = 0 + 1 + 1 from rfl]
  simp only [runLoop, hg1, if_true, hb, hg2]
  simp

/-! ## The bounded and unbounded sequence theorems -/

lemma seq1_body_done (env : Nat → Nat) (eps : Nat) (u u1 : St)
    (h : seq1_body env eps u = FR.done u1) :
    u1.millis = u.millis + 2040 * (eps + 1) ∧ u1.events = u.events := by
  have hd := runPhases_done env eps seq1_phases seq1_phases_actsOk u u1 h
  rw [seq1_cost] at hd
  exact hd

lemma seq8_body_done (env : Nat → Nat) (eps : Nat) (u u1 : St)
    (h : seq8_body env eps u = FR.done u1) :
    u1.millis = u.millis + (840 * eps + 9540) ∧ u1.events = u.events := by
  have hd := runPhases_done env eps seq8_phases seq8_phases_actsOk u u1 h
  rw [seq8_cost] at hd
  exact hd

/-- C1 (amended): for a bounded sequence started with a non-negative timeout
and no button activity, the run terminates and returns "not pressed" (0); the
return happens no earlier than when the clock passes `start_time + timeout`,
and no later than one full pattern cycle after the deadline — `seq1`
re-checks the deadline once per 2040-step fade cycle (2040·(eps+1) ms) and
`seq8` once per brownout cycle (840·eps+9540 ms, after a 60·(eps+2) ms entry
ramp), not once per animation step. -/
theorem seq_bounded_timeout (env : Nat → Nat) (eps : Nat) (t : Int) (s : St)
    (ht : 0 ≤ t) (hfree : FreeEnv env) :
    (∀ fuel r, seq1 env eps t s fuel = some r →
      ∃ s1, r = SR.timedOut s1 ∧ r.retVal = some 0 ∧
        s.millis + t.toNat ≤ s1.millis ∧
        s1.millis < s.millis + t.toNat + 2040 * (eps + 1)) ∧
    (∃ fuel s1, seq1 env eps t s fuel = some (SR.timedOut s1)) ∧
    (∀ fuel r, seq8 env eps t s fuel = some r →
      ∃ s1, r = SR.timedOut s1 ∧ r.retVal = some 0 ∧
        s.millis + t.toNat ≤ s1.millis ∧
        s1.millis < s.millis + t.toNat + (60 * (eps + 2) + (840 * eps + 9540))) ∧
    (∃ fuel s1, seq8 env eps t s fuel = some (SR.timedOut s1)) := by
  have hfb1 : ∀ u, ∃ u1, seq1_body env eps u = FR.done u1 :=
    fun u => runPhases_free env eps hfree seq1_phases u
  have hfb8 : ∀ u, ∃ u1, seq8_body env eps u = FR.done u1 :=
    fun u => runPhases_free env eps hfree seq8_phases u
  have hb1 : ∀ u u1, seq1_body env eps u = FR.done u1 →
      u1.millis = u.millis + 2040 * (eps + 1) :=
    fun u u1 h => (seq1_body_done env eps u u1 h).1
  have hb8 : ∀ u u1, seq8_body env eps u = FR.done u1 →
      u1.millis = u.millis + (840 * eps + 9540) :=
    fun u u1 h => (seq8_body_done env eps u u1 h).1
  refine ⟨?_, ?_, ?_, ?_⟩
  · intro fuel r h
    simp only [seq1] at h
    rcases runLoop_free_shape _ t _ hfb1 fuel _ r h with ⟨s1, rfl⟩
    have hguard := runLoop_timedOut_guard _ t _ fuel _ s1 h
    rw [seq_guard_false_iff] at hguard
    have hupper := runLoop_timedOut_upper _ t _ (2040 * (eps + 1)) ht hb1 fuel _ s1 h
    refine ⟨s1, rfl, rfl, ?_, ?_⟩
    · exact hguard.2
    · rcases hupper with h1 | h1
      · rw [h1]
        show s.millis < s.millis + t.toNat + 2040 * (eps + 1)
        omega
      · exact h1
  · rcases runLoop_free_term (seq1_body env eps) t s.millis (2040 * (eps + 1)) ht
      hfb1 hb1 t.toNat (wOcr1a 0 (wOcr1b 0 (wOcr0b 0 (wOcr0a 0 s))))
      (by show s.millis + t.toNat ≤ s.millis + t.toNat * (2040 * (eps + 1))
          have := Nat.le_mul_of_pos_right t.toNat
            (show 0 < 2040 * (eps + 1) by positivity)
          omega) with ⟨s1, h1⟩
    exact ⟨t.toNat + 1, s1, h1⟩
  · intro fuel r h
    simp only [seq8] at h
    rcases phase_free env eps (fun i => wAll i) 2 hfree 60 0
      (wOcr1a 0 (wOcr1b 0 (wOcr0b 0 (wOcr0a 0 s)))) with ⟨s2, h2⟩
    rw [h2] at h
    have hs2 := phase_done env eps (fun i => wAll i) 2
      (fun j u => ⟨rfl, rfl, rfl⟩) 60 0 _ s2 h2
    rcases runLoop_free_shape _ t _ hfb8 fuel _ r h with ⟨s1, rfl⟩
    have hguard := runLoop_timedOut_guard _ t _ fuel _ s1 h
    rw [seq_guard_false_iff] at hguard
    have hupper := runLoop_timedOut_upper _ t _ (840 * eps + 9540) ht hb8 fuel _ s1 h
    refine ⟨s1, rfl, rfl, ?_, ?_⟩
    · exact hguard.2
    · rcases hupper with h1 | h1
      · rw [h1, hs2.1]
        show s.millis + 60 * (eps + 2) < s.millis + t.toNat +
          (60 * (eps + 2) + (840 * eps + 9540))
        omega
      · have h1' : s1.millis < s.millis + t.toNat + (840 * eps + 9540) := h1
        omega
  · rcases phase_free env eps (fun i => wAll i) 2 hfree 60 0
      (wOcr1a 0 (wOcr1b 0 (wOcr0b 0 (wOcr0a 0 s)))) with ⟨s2, h2⟩
    have hs2 := phase_done env eps (fun i => wAll i) 2
      (fun j u => ⟨rfl, rfl, rfl⟩) 60 0 _ s2 h2
    rcases runLoop_free_term (seq8_body env eps) t s.millis (840 * eps + 9540) ht
      hfb8 hb8 t.toNat s2
      (by have := Nat.le_mul_of_pos_right t.toNat
            (show 0 < 840 * eps + 9540 by positivity)
          have hm : s2.millis = s.millis + 60 * (eps + 2) := hs2.1
          omega) with ⟨s1, h1⟩
    refine ⟨t.toNat + 1, s1, ?_⟩
    simp only [seq8, h2]
    exact h1

/-- Witness for `seq_bounded_timeout` at `timeout = 0` with a silent button. -/
theorem seq_bounded_timeout_witness :
    (0 : Int) ≤ 0 ∧ FreeEnv (fun _ => 1023) ∧
    ((∀ fuel r, seq1 (fun _ => 1023) 0 0 st0 fuel = some r →
      ∃ s1, r = SR.timedOut s1 ∧ r.retVal = some 0 ∧
        st0.millis + (0 : Int).toNat ≤ s1.millis ∧
        s1.millis < st0.millis + (0 : Int).toNat + 2040 * (0 + 1)) ∧
    (∃ fuel s1, seq1 (fun _ => 1023) 0 0 st0 fuel = some (SR.timedOut s1)) ∧
    (∀ fuel r, seq8 (fun _ => 1023) 0 0 st0 fuel = some r →
      ∃ s1, r = SR.timedOut s1 ∧ r.retVal = some 0 ∧
        st0.millis + (0 : Int).toNat ≤ s1.millis ∧
        s1.millis < st0.millis + (0 : Int).toNat + (60 * (0 + 2) + (840 * 0 + 9540))) ∧
    (∃ fuel s1, seq8 (fun _ => 1023) 0 0 st0 fuel = some (SR.timedOut s1))) :=
  ⟨le_refl 0, fun i => by norm_num,
   seq_bounded_timeout (fun _ => 1023) 0 0 st0 (le_refl 0) (fun i => by norm_num)⟩

/-- C1 counterexample against the claim as stated: `seq1` started with
`timeout = 1000` ms and no button activity (every poll reads 1023) returns
"not pressed" only at 2040 ms — the end of the fade cycle in progress —
which is later than the deadline plus one animation step (one step is
`eps + 1 = 1` ms here), because the deadline is re-checked only once per full
pattern cycle. -/
theorem seq1_deadline_lag_counterexample :
    ∃ s1, seq1 (fun _ => 1023) 0 1000 st0 2 = some (SR.timedOut s1) ∧
      s1.millis = 2040 ∧ 1000 + (0 + 1) < s1.millis := by
  have hfree : FreeEnv (fun _ => 1023) := fun i => by norm_num
  rcases runPhases_free (fun _ => 1023) 0 hfree seq1_phases
      (wOcr1a 0 (wOcr1b 0 (wOcr0b 0 (wOcr0a 0 st0)))) with ⟨s2, h2⟩
  have hmil : s2.millis = 2040 := by
    have h := (runPhases_done (fun _ => 1023) 0 seq1_phases seq1_phases_actsOk
      _ s2 h2).1
    rw [h, seq1_cost]
    simp [wOcr1a, wOcr1b, wOcr0b, wOcr0a, st0]
  refine ⟨s2, ?_, hmil, by omega⟩
  simp only [seq1]
  apply runLoop_two_steps
  · decide
  · exact h2
  · rw [hmil]
    decide

/-- C2: for a sequence invoked with a negative timeout the elapsed-time check
is skipped entirely (the guard is true regardless of the clock), the loop
runs forever when the Input Monitor never reports a press, a pressed outcome
carries return value 1 and exactly one `pressDetected` event — the sequence
returns at the very poll that detected the press, with no further animation
steps — and a tap after `k` silent polls (within the first fade) makes `seq1`
return "pressed" at exactly `k·(eps+1) + 2·eps + 300` ms (the k-th animation
step plus the debounce re-sample), regardless of elapsed time. -/
theorem seq_unbounded_press (env : Nat → Nat) (eps : Nat) (t : Int) (s : St)
    (ht : t < 0) :
    (∀ start m, seq_guard t start m = true) ∧
    (FreeEnv env → ∀ fuel, seq1 env eps t s fuel = none) ∧
    (∀ fuel s1, seq1 env eps t s fuel = some (SR.pressed s1) →
      (SR.pressed s1).retVal = some 1 ∧
      s1.events = s.events ++ [Ev.pressDetected]) ∧
    (∀ k, k < 255 → (∀ j, j < k → 1000 ≤ env (s.adcIdx + j)) →
      env (s.adcIdx + k) < 1000 → 1000 ≤ env (s.adcIdx + k + 1) →
      ∃ s1, seq1 env eps t s 1 = some (SR.pressed s1) ∧
        s1.millis = s.millis + k * (eps + 1) + (2 * eps + 300)) := by
  refine ⟨fun start m => seq_guard_neg t ht start m, ?_, ?_, ?_⟩
  · intro hfree fuel
    simp only [seq1]
    exact runLoop_free_none _ t _ ht
      (fun u => runPhases_free env eps hfree seq1_phases u) fuel _
  · intro fuel s1 h
    simp only [seq1] at h
    refine ⟨rfl, ?_⟩
    have := runLoop_pressed_events (seq1_body env eps) t _
      (fun u u1 hu => (seq1_body_done env eps u u1 hu).2)
      (fun u u1 hu => runPhases_pressed env eps seq1_phases
        seq1_phases_actsOk u u1 hu)
      fuel _ s1 h
    exact this
  · intro k hk hpre hp hq
    rcases phase_press_at env eps (fun i => wOcr0a (i + 1)) 1
      (fun j u => ⟨rfl, rfl, rfl⟩) k 255 0
      (wOcr1a 0 (wOcr1b 0 (wOcr0b 0 (wOcr0a 0 s)))) hk hpre hp hq
      with ⟨s1, hph, hmil⟩
    refine ⟨s1, ?_, ?_⟩
    · simp only [seq1]
      rw [show (1 : Nat) = 0 + 1 from rfl]
      simp only [runLoop, seq_guard_neg t ht, if_true]
      simp only [seq1_body, seq1_phases, runPhases, hph, FR.bind]
    · rw [hmil]
      rfl

/-- Witness for `seq_unbounded_press` at `timeout = -1` with a silent button. -/
theorem seq_unbounded_press_witness :
    (- 1 : Int) < 0 ∧
    ((∀ start m, seq_guard (- 1) start m = true) ∧
    (FreeEnv (fun _ => 1023) → ∀ fuel, seq1 (fun _ => 1023) 0 (- 1) st0 fuel = none) ∧
    (∀ fuel s1, seq1 (fun _ => 1023) 0 (- 1) st0 fuel = some (SR.pressed s1) →
      (SR.pressed s1).retVal = some 1 ∧
      s1.events = st0.events ++ [Ev.pressDetected]) ∧
    (∀ k, k < 255 → (∀ j, j < k → 1000 ≤ (fun _ : Nat => 1023) (st0.adcIdx + j)) →
      (fun _ : Nat => 1023) (st0.adcIdx + k) < 1000 →
      1000 ≤ (fun _ : Nat => 1023) (st0.adcIdx + k + 1) →
      ∃ s1, seq1 (fun _ => 1023) 0 (- 1) st0 1 = some (SR.pressed s1) ∧
        s1.millis = st0.millis + k * (0 + 1) + (2 * 0 + 300))) :=
  ⟨by decide, seq_unbounded_press (fun _ => 1023) 0 (- 1) st0 (by decide)⟩

/-! ## The sound-reactive flasher (seq12) -/

/-- Per-iteration state of `seq12`'s loop: the ring buffer, its write index
`mic_buffer_current`, the local `leds` value, and the `uint16_t` `led_time`. -/
structure MicSt where
  buffer : List Nat
  cur : Nat
  leds : Nat
  ledTime : Nat
deriving DecidableEq, Repr

/-- State of `seq12` right after `init_mic_buffer()` with `leds = 0` and
`led_time = millis` (= 0 at the start of the modeled run). -/
def micInit : MicSt :=
  { buffer := init_mic_buffer.1, cur := init_mic_buffer.2, leds := 0, ledTime := 0 }

/-- One iteration of `seq12`'s while-loop body (src lines 1467-1502) for a run
with no button activity: insert the microphone sample at the write index,
advance the index mod 16, compute the MAD, apply the noise floor and the
63-clamp, scale by `mic << 2`, overwrite the local `leds` with the scaled
value unconditionally (`leds = (uint8_t)mic;`), drive all four duty registers
with it, then run the `fade out leds` block, which decrements the local copy
when more than one millisecond has passed since `led_time` and stores the
truncated clock back into the `uint16_t` `led_time` — a decrement that the
next iteration's unconditional overwrite discards.  Each of the two ADC
conversions per iteration (microphone sample, button poll) advances the clock
by `eps`.  Returns the new state, the new clock, and the value driven to the
registers this iteration. -/
def seq12_step (eps : Nat) (sample : Nat) (m : MicSt) (millis : Nat) :
    MicSt × Nat × Nat :=
  let buffer := m.buffer.set m.cur sample
  let cur := (m.cur + 1) % MIC_BUFFER_SIZE
  let millis1 := millis + eps
  let mic0 := get_mic_buffer_mad buffer
  let mic1 := noise_floor mic0
  let mic2 := if 63 < mic1 then 63 else mic1
  let mic3 := (mic2 <<< 2) % 65536
  let leds := mic3 % 256
  let fade := if m.ledTime + 1 < millis1 then
      ((if 0 < leds then leds - 1 else leds), millis1 % 65536)
    else (leds, m.ledTime)
  ({ buffer := buffer, cur := cur, leds := fade.1, ledTime := fade.2 },
   millis1 + eps, leds)

/-- Run `seq12` iterations over a list of microphone samples, collecting the
value driven to the duty registers at each iteration. -/
def seq12_run (eps : Nat) : List Nat → MicSt → Nat → List Nat
  | [], _, _ => []
  | a :: rest, m, millis =>
    let r := seq12_step eps a m millis
    r.2.2 :: seq12_run eps rest r.1 r.2.1

/-- C7 evaluation at the failing input: starting from the freshly initialized
ring buffer and feeding sixteen consecutive full-scale microphone samples
(1023) with each ADC conversion taking 1 ms (so one loop iteration spans
2 ms), the brightness driven to the four channels is 252 at iteration 13,
76 at iteration 14 and 0 at iteration 15: it drops by 176 units across a
single 2 ms iteration even though no louder sample arrived.  The
`fade out leds` decrement is dead code — `leds = (uint8_t)mic;` overwrites
the decayed value on every iteration, so the displayed brightness follows the
raw scaled MAD instead of decaying by at most 1 unit per millisecond. -/
theorem seq12_decay_dead :
    (seq12_run 1 (List.replicate 16 1023) micInit 0).drop 13 = [252, 76, 0] ∧
    76 + 2 < 252 := by
  constructor
  · decide
  · decide

/-! ## The poll-and-wait helper -/

lemma dmcb_loop_inv (env : Nat → Nat) (eps start d : Nat) :
    ∀ fuel p s r s1, (p = 0 ∨ p = 1) →
      dmcb_loop env eps start d fuel p s = some (DR.normal r s1) →
      start + d ≤ s1.millis ∧ (r = 0 ∨ r = 1) ∧
      ∃ rest, s1.events = s.events ++ rest ∧
        (r = 1 ↔ p = 1 ∨ Ev.pressDetected ∈ rest) := by
  intro fuel
  induction fuel with
  | zero => intro p s r s1 _ h; simp [dmcb_loop] at h
  | succ fuel ih =>
    intro p s r s1 hp h
    simp only [dmcb_loop] at h
    by_cases hg : s.millis < start + d
    · rw [if_pos hg] at h
      rcases hc : check_button_input env eps s with ⟨b, st⟩
      rw [hc] at h
      cases b with
      | notPressed =>
        have hst := check_notPressed_eq env eps s st hc
        rcases ih p st r s1 hp h with ⟨h1, h2, rest, hev, hiff⟩
        refine ⟨h1, h2, rest, ?_, hiff⟩
        rw [hev, hst]
      | pressed =>
        have hpr := check_pressed_spec env eps s st hc
        rcases ih 1 st r s1 (Or.inr rfl) h with ⟨h1, h2, rest, hev, hiff⟩
        have hr1 : r = 1 := hiff.mpr (Or.inl rfl)
        refine ⟨h1, h2, Ev.pressDetected :: rest, ?_, ?_⟩
        · rw [hev, hpr.1]
          simp
        · constructor
          · intro _
            right
            simp
          · intro _
            exact hr1
      | resetDev => simp at h
    · rw [if_neg hg] at h
      simp only [Option.some.injEq, DR.normal.injEq] at h
      refine ⟨?_, ?_, [], ?_, ?_⟩
      · rw [← h.2]
        omega
      · rcases hp with hp | hp <;> rw [← h.1, hp] <;> simp
      · rw [← h.2]
        simp
      · rw [← h.1]
        simp

lemma dmcb_term (env : Nat → Nat) (eps start d : Nat) (he : 1 ≤ eps) :
    ∀ n p s, start + d ≤ s.millis + n * eps →
      ∃ out, dmcb_loop env eps start d (n + 1) p s = some out := by
  intro n
  induction n with
  | zero =>
    intro p s hs
    have hg : ¬ s.millis < start + d := by omega
    exact ⟨DR.normal p s, by simp [dmcb_loop, hg]⟩
  | succ n ih =>
    intro p s hs
    by_cases hg : s.millis < start + d
    · rcases hc : check_button_input env eps s with ⟨b, st⟩
      have hx : (n + 1) * eps = n * eps + eps := by ring
      cases b with
      | notPressed =>
        have hst := check_notPressed_eq env eps s st hc
        have hm : st.millis = s.millis + eps := by rw [hst]
        rcases ih p st (by omega) with ⟨out, hout⟩
        refine ⟨out, ?_⟩
        simp only [dmcb_loop, if_pos hg, hc]
        exact hout
      | pressed =>
        have hm := (check_pressed_spec env eps s st hc).2
        rcases ih 1 st (by omega) with ⟨out, hout⟩
        refine ⟨out, ?_⟩
        simp only [dmcb_loop, if_pos hg, hc]
        exact hout
      | resetDev =>
        refine ⟨DR.resetDev st, ?_⟩
        simp only [dmcb_loop, if_pos hg, hc]
    · exact ⟨DR.normal p s, by simp [dmcb_loop, hg]⟩

/-- C10: a completed `delay_millis_check_button(d)` call returns only after
the millisecond clock has reached its starting value plus `d` (a press during
the wait latches the result but never ends the wait early), and it returns 1
if and only if the Input Monitor reported a press at least once during the
wait (the flag is 0 or 1, and the events added during the wait contain
`pressDetected` exactly when the result is 1); moreover, whenever each poll
consumes at least one millisecond, some fuel suffices for the call to
complete. -/
theorem delay_millis_check_button_spec (env : Nat → Nat) (eps d : Nat) (s : St)
    (fuel : Nat) (r : Nat) (s1 : St)
    (h : delay_millis_check_button env eps d s fuel = some (DR.normal r s1)) :
    s.millis + d ≤ s1.millis ∧ (r = 0 ∨ r = 1) ∧
    (∃ rest, s1.events = s.events ++ rest ∧
      (r = 1 ↔ Ev.pressDetected ∈ rest)) ∧
    (1 ≤ eps → ∃ fuel2 out,
      delay_millis_check_button env eps d s fuel2 = some out) := by
  have hinv := dmcb_loop_inv env eps s.millis d fuel 0 s r s1 (Or.inl rfl) h
  refine ⟨hinv.1, hinv.2.1, ?_, ?_⟩
  · rcases hinv.2.2 with ⟨rest, hev, hiff⟩
    refine ⟨rest, hev, ?_⟩
    rw [hiff]
    simp
  · intro he
    have hd : d ≤ d * eps := Nat.le_mul_of_pos_right d (by omega)
    rcases dmcb_term env eps s.millis d he d 0 s (by omega) with ⟨out, hout⟩
    exact ⟨d + 1, out, hout⟩

/-- Witness for `delay_millis_check_button_spec`: a 400 ms wait with a tap at
the first poll (readings 0 then 1023), each conversion taking 50 ms. -/
theorem delay_millis_check_button_spec_witness :
    delay_millis_check_button (fun i => if i = 0 then 0 else 1023) 50 400 st0 20 =
      some (DR.normal 1 { st0 with
                            millis := 400,
                            adcIdx := 2,
                            events := [Ev.pressDetected] }) ∧
    (st0.millis + 400 ≤ 400 ∧ ((1 : Nat) = 0 ∨ (1 : Nat) = 1) ∧
    (∃ rest, ({ st0 with
                  millis := 400,
                  adcIdx := 2,
                  events := [Ev.pressDetected] } : St).events = st0.events ++ rest ∧
      ((1 : Nat) = 1 ↔ Ev.pressDetected ∈ rest)) ∧
    (1 ≤ 50 → ∃ fuel2 out,
      delay_millis_check_button (fun i => if i = 0 then 0 else 1023) 50 400 st0
        fuel2 = some out)) :=
  ⟨by decide,
   delay_millis_check_button_spec (fun i => if i = 0 then 0 else 1023) 50 400
     st0 20 1 { st0 with
                  millis := 400,
                  adcIdx := 2,
                  events := [Ev.pressDetected] } (by decide)⟩

end LeahSign
